import Mathlib

/-!
Verification of the Textract key-value extraction service (`src/main.rs`).

The Rust program ingests a flat list of AWS Textract `Block` records and
produces `KeyValuePair` records (JSON path, sorted) or an annotated image
(display path).  This file gives a shallow embedding of the program's pure
core — `extract_key_value_pairs`, `get_text_for_block`,
`sort_key_value_pairs`, `draw_bounding_box`, and the pair-consuming parts of
the `analyze_image` / `display_image` handlers — and proves the specified
properties about it.

Modelling choices:
* `f32` coordinates are modelled as exact rationals (`ℚ`); the comparator's
  `partial_cmp(..).unwrap_or(Equal)` NaN fallback is unreachable under this
  idealisation, so `qcmp` below is the total rational comparison.
* Rust `HashMap` is modelled as an association list with last-writer-wins
  insert; because `HashMap` iteration order is unspecified and randomly
  seeded, extraction is additionally parameterised by the iteration order of
  the key map (`extractWithOrder`), constrained to be a permutation of its
  entries.
* Rust `Vec::sort_by` is a stable sort; it is modelled by `List.mergeSort`,
  which is also stable, with `le a b := cmp a b ≠ Greater`.
* Rust `String` is Lean `String`; `str::trim` is modelled by `rustTrim`
  (drop trailing, then leading, whitespace characters).
-/

/-- `aws_sdk_textract::types::BlockType` (only the variants the program
inspects matter; `Other` stands for the remaining variants). -/
inductive BlockType where
  | KeyValueSet
  | Word
  | Line
  | Page
  | Other
deriving DecidableEq, Repr

/-- `aws_sdk_textract::types::EntityType`. -/
inductive EntityType where
  | Key
  | Value
deriving DecidableEq, Repr

/-- `aws_sdk_textract::types::RelationshipType` (collapsed to the variants
the program distinguishes). -/
inductive RelationshipType where
  | Child
  | Value
  | Other
deriving DecidableEq, Repr

/-- The program's local `BoundingBox` struct (`main.rs:27-33`); also stands
for the SDK bounding box it is copied from, since both carry exactly the
fields `width, height, left, top` (f32, modelled as `ℚ`). -/
structure BoundingBox where
  width : ℚ
  height : ℚ
  left : ℚ
  top : ℚ
deriving DecidableEq, Repr

/-- `aws_sdk_textract::types::Geometry`: its `bounding_box()` accessor
returns an optional box. -/
structure Geometry where
  boundingBox : Option BoundingBox
deriving DecidableEq, Repr

/-- `aws_sdk_textract::types::Relationship`: `r#type()` is optional,
`ids()` yields the (possibly empty) target-id list. -/
structure Relationship where
  rtype : Option RelationshipType
  ids : List String
deriving DecidableEq, Repr

/-- `aws_sdk_textract::types::Block`, restricted to the accessors the
program calls: `id()`, `block_type()`, `entity_types()` (empty slice when
absent), `text()`, `geometry()`, `relationships()` (empty slice when
absent). -/
structure Block where
  id : Option String
  blockType : Option BlockType
  entityTypes : List EntityType
  text : Option String
  geometry : Option Geometry
  relationships : List Relationship
deriving DecidableEq, Repr

/-- The output record (`main.rs:19-25`). -/
structure KeyValuePair where
  key : String
  value : String
  key_bounding_box : Option BoundingBox
  value_bounding_box : Option BoundingBox
deriving DecidableEq, Repr

/-! ### HashMap model

`HashMap<String, &Block>` is modelled as an association list.  `mapInsert`
realises last-writer-wins insert (the new binding shadows and evicts any old
binding for the same key); `mapGet` is `HashMap::get`.  Iteration order of a
real `HashMap` is unspecified, which is accounted for where it matters
(`extractWithOrder`). -/

abbrev BlockMap := List (String × Block)

/-- `HashMap::insert`: the new binding replaces any existing binding for the
same key. -/
def mapInsert (m : BlockMap) (k : String) (b : Block) : BlockMap :=
  (k, b) :: m.filter (fun e => e.1 != k)

/-- `HashMap::get`. -/
def mapGet (m : BlockMap) (k : String) : Option Block :=
  (m.find? (fun e => e.1 == k)).map (·.2)

/-- The three lookup structures built by `extract_key_value_pairs`
(`main.rs:219-235`): `block_map`, `key_map`, `value_map`. -/
structure Index where
  blockMap : BlockMap
  keyMap : BlockMap
  valueMap : BlockMap
deriving Repr

/-- One iteration of the indexing loop (`main.rs:223-235`): a block with an
id always enters `block_map`; a `KeyValueSet` block additionally enters
`key_map` when its entity types contain `KEY`, else `value_map`. -/
def indexStep (idx : Index) (block : Block) : Index :=
  match block.id with
  | none => idx
  | some bid =>
    let idx := { idx with blockMap := mapInsert idx.blockMap bid block }
    if block.blockType = some BlockType.KeyValueSet then
      if block.entityTypes.contains EntityType.Key then
        { idx with keyMap := mapInsert idx.keyMap bid block }
      else
        { idx with valueMap := mapInsert idx.valueMap bid block }
    else
      idx

/-- The indexing loop over the whole block list. -/
def buildIndex (blocks : List Block) : Index :=
  blocks.foldl indexStep { blockMap := [], keyMap := [], valueMap := [] }

/-! ### Text assembly (`get_text_for_block`, `main.rs:282-302`) -/

/-- Model of Rust `char::is_whitespace` on the characters that occur here. -/
def wsChar (c : Char) : Bool := c.isWhitespace

/-- Model of Rust `str::trim`: remove trailing, then leading, whitespace. -/
def rustTrim (s : String) : String :=
  ⟨((s.data.reverse.dropWhile wsChar).reverse).dropWhile wsChar⟩

/-- `get_text_for_block`: walk every `CHILD` relationship in order; for each
id resolving to a `Word` block whose `text()` is present, push the text and
a space; finally trim. -/
def get_text_for_block (block : Block) (block_map : BlockMap) : String :=
  let text := block.relationships.foldl (fun acc rel =>
    if rel.rtype = some RelationshipType.Child then
      rel.ids.foldl (fun acc child_id =>
        match mapGet block_map child_id with
        | some word_block =>
          if word_block.blockType = some BlockType.Word then
            match word_block.text with
            | some word_text => acc ++ word_text ++ " "
            | none => acc
          else acc
        | none => acc) acc
    else acc) ""
  rustTrim text

/-! ### Pair assembly (`extract_key_value_pairs`, `main.rs:237-280`) -/

/-- `block.geometry().and_then(|g| g.bounding_box()).map(|bb| BoundingBox
{..})` (`main.rs:241-249` and `257-265`): the optional box of a block,
copied field for field into the local struct. -/
def mkBoundingBox (b : Block) : Option BoundingBox :=
  (b.geometry.bind (·.boundingBox)).map (fun bb =>
    { width := bb.width, height := bb.height, left := bb.left, top := bb.top })

/-- The body of the per-key loop (`main.rs:239-277`), accumulator-passing:
compute the key's text and box once, then for every `VALUE` relationship and
every target id that `value_map` resolves, push one `KeyValuePair`. -/
def pairAccum (block_map value_map : BlockMap) (key_block : Block)
    (acc : List KeyValuePair) : List KeyValuePair :=
  let key_text := get_text_for_block key_block block_map
  let key_bounding_box := mkBoundingBox key_block
  key_block.relationships.foldl (fun acc rel =>
    if rel.rtype = some RelationshipType.Value then
      rel.ids.foldl (fun acc value_block_id =>
        match mapGet value_map value_block_id with
        | some value_block =>
          acc ++ [{ key := key_text,
                    value := get_text_for_block value_block block_map,
                    key_bounding_box := key_bounding_box,
                    value_bounding_box := mkBoundingBox value_block }]
        | none => acc) acc
    else acc) acc

/-- The records contributed by one key block. -/
def pairsForKey (block_map value_map : BlockMap) (key_block : Block) :
    List KeyValuePair :=
  pairAccum block_map value_map key_block []

/-- `extract_key_value_pairs` with the iteration order of `key_map` made
explicit (Rust `HashMap` iteration order is unspecified and randomly
seeded; a run of the program corresponds to some permutation of the key
map's entries). -/
def extractWithOrder (blocks : List Block) (keyOrder : List (String × Block)) :
    List KeyValuePair :=
  let idx := buildIndex blocks
  keyOrder.foldl (fun acc e => pairAccum idx.blockMap idx.valueMap e.2 acc) []

/-- `extract_key_value_pairs` at the canonical iteration order (the key
map's own entry order in this model). -/
def extract_key_value_pairs (blocks : List Block) : List KeyValuePair :=
  extractWithOrder blocks (buildIndex blocks).keyMap

/-! ### Reading-order sort (`sort_key_value_pairs`, `main.rs:304-330`) -/

/-- Total comparison on `ℚ`, the image of `f32::partial_cmp` under the
exact-rational idealisation (the `unwrap_or(Equal)` NaN fallback has no
rational counterpart). -/
def qcmp (x y : ℚ) : Ordering :=
  if x < y then Ordering.lt else if x = y then Ordering.eq else Ordering.gt

/-- The anchor of a record: `a.key_bounding_box.as_ref().or(a.value_bounding_box.as_ref())`. -/
def anchorBox (p : KeyValuePair) : Option BoundingBox :=
  p.key_bounding_box.or p.value_bounding_box

/-- The comparator closure passed to `sort_by` (`main.rs:305-329`). -/
def pairCmp (a b : KeyValuePair) : Ordering :=
  match anchorBox a, anchorBox b with
  | some x, some y => (qcmp x.top y.top).then (qcmp x.left y.left)
  | some _, none => Ordering.lt
  | none, some _ => Ordering.gt
  | none, none => Ordering.eq

/-- `a` may precede `b` in the sorted order: the comparator does not return
`Greater`. -/
def pairLe (a b : KeyValuePair) : Bool :=
  pairCmp a b != Ordering.gt

/-- Insert into a sorted list, before the first element the inserted one
may precede (the placement a stable sort gives an element arriving after
the list's elements). -/
def insertSorted (le : α → α → Bool) (x : α) : List α → List α
  | [] => [x]
  | y :: ys => if le x y then x :: y :: ys else y :: insertSorted le x ys

/-- Stable insertion sort. -/
def insertionSort (le : α → α → Bool) : List α → List α
  | [] => []
  | x :: xs => insertSorted le x (insertionSort le xs)

/-- `Vec::sort_by` is a stable sort ordered by the comparator; since a
stable sort's output is uniquely determined by the comparator and the input
order, it is modelled by stable insertion sort with
`le a b := pairCmp a b ≠ Greater`. -/
def sort_key_value_pairs (key_value_pairs : List KeyValuePair) :
    List KeyValuePair :=
  insertionSort pairLe key_value_pairs

/-! ### Handlers (pair-level dataflow)

`analyze_image` (`main.rs:209-215`) extracts and then sorts the pairs;
`display_image` (`main.rs:112-128`) extracts and iterates the pairs for
drawing without sorting them. -/

/-- The pair list serialised by `analyze_image`: extraction followed by the
reading-order sort. -/
def analyze_image_pairs (blocks : List Block) : List KeyValuePair :=
  let key_value_pairs := extract_key_value_pairs blocks
  sort_key_value_pairs key_value_pairs

/-- The pair list iterated by `display_image`'s drawing loop: the raw
extraction output (`main.rs:113,119`; no sorting call on this path). -/
def display_image_pairs (blocks : List Block) : List KeyValuePair :=
  extract_key_value_pairs blocks

/-! ### Rendering geometry (`draw_bounding_box`, `main.rs:142-166`) -/

/-- An `imageproc::rect::Rect`: integer corner, unsigned size. -/
structure Rect where
  left : Int
  top : Int
  width : Nat
  height : Nat
deriving DecidableEq, Repr

/-- Rust `as i32` on a (finite) float value: truncation toward zero. -/
def ratTruncToInt (q : ℚ) : Int :=
  if q < 0 then -(Int.floor (-q)) else Int.floor q

/-- Rust `as u32` on a (finite) float value: truncation toward zero,
saturating at 0 for negative values. -/
def ratTruncToNat (q : ℚ) : Nat :=
  (ratTruncToInt q).toNat

/-- The sequence of hollow rectangles drawn by `draw_bounding_box` for one
box: the base rectangle in pixel coordinates, then one-pixel-larger
concentric rectangles, `thickness` in total. -/
def draw_bounding_box (bbox : BoundingBox) (imgWidth imgHeight : Nat)
    (thickness : Nat) : List Rect :=
  let base_rect : Rect :=
    { left := ratTruncToInt (bbox.left * imgWidth),
      top := ratTruncToInt (bbox.top * imgHeight),
      width := ratTruncToNat (bbox.width * imgWidth),
      height := ratTruncToNat (bbox.height * imgHeight) }
  (List.range thickness).foldl (fun acc i =>
    acc ++ [{ left := base_rect.left - i,
              top := base_rect.top - i,
              width := base_rect.width + 2 * i,
              height := base_rect.height + 2 * i }]) []

/-! ### JSON serialisation (`#[derive(Serialize)]`, `main.rs:19-33`)

`analyze_image` returns `Json<Vec<KeyValuePair>>`; serde's derived
serialiser emits each struct as an object with its fields in declaration
order and `Option::None` as `null`. -/

/-- A JSON value. -/
inductive Json where
  | null
  | str (s : String)
  | num (q : ℚ)
  | arr (elems : List Json)
  | obj (fields : List (String × Json))

/-- Serde output for the `BoundingBox` struct. -/
def serializeBoundingBox (b : BoundingBox) : Json :=
  Json.obj [("width", Json.num b.width), ("height", Json.num b.height),
            ("left", Json.num b.left), ("top", Json.num b.top)]

/-- Serde output for an `Option<BoundingBox>` field. -/
def serializeOptBox : Option BoundingBox → Json
  | none => Json.null
  | some b => serializeBoundingBox b

/-- Serde output for one `KeyValuePair`. -/
def serializeKeyValuePair (p : KeyValuePair) : Json :=
  Json.obj [("key", Json.str p.key), ("value", Json.str p.value),
            ("key_bounding_box", serializeOptBox p.key_bounding_box),
            ("value_bounding_box", serializeOptBox p.value_bounding_box)]

/-- Serde output for the `Vec<KeyValuePair>` response body. -/
def serializeKeyValuePairs (l : List KeyValuePair) : Json :=
  Json.arr (l.map serializeKeyValuePair)

/-- Modelled from the spec: the repository derives only `Serialize` and
contains no deserialiser, so the inverse is modelled from the §6 output
contract — a list of objects with fields `key`, `value`,
`key_bounding_box` (nullable `{width,height,left,top}` object),
`value_bounding_box` (same shape, nullable). -/
def deserializeBoundingBox : Json → Option BoundingBox
  | Json.obj [("width", Json.num w), ("height", Json.num h),
              ("left", Json.num l), ("top", Json.num t)] =>
    some { width := w, height := h, left := l, top := t }
  | _ => none

/-- Modelled from the spec: nullable bounding-box field. -/
def deserializeOptBox : Json → Option (Option BoundingBox)
  | Json.null => some none
  | j => (deserializeBoundingBox j).map some

/-- Modelled from the spec: one `KeyValuePair` object. -/
def deserializeKeyValuePair : Json → Option KeyValuePair
  | Json.obj [("key", Json.str k), ("value", Json.str v),
              ("key_bounding_box", jk), ("value_bounding_box", jv)] =>
    match deserializeOptBox jk, deserializeOptBox jv with
    | some kb, some vb =>
      some { key := k, value := v, key_bounding_box := kb,
             value_bounding_box := vb }
    | _, _ => none
  | _ => none

/-- Modelled from the spec: the record list. -/
def deserializeKeyValuePairList : Json → Option (List KeyValuePair)
  | Json.arr elems =>
    elems.foldr (fun j acc =>
      match deserializeKeyValuePair j, acc with
      | some p, some ps => some (p :: ps)
      | _, _ => none) (some [])
  | _ => none

/-! ### Derived views used in the statements -/

/-- The flattened target ids of all `VALUE` relationships of a block, in
source order (§4.2 `resolve_value_targets`). -/
def valueIds (b : Block) : List String :=
  b.relationships.flatMap (fun rel =>
    if rel.rtype = some RelationshipType.Value then rel.ids else [])

/-- The value-target ids that resolve to a known value block. -/
def resolvableValueIds (value_map : BlockMap) (b : Block) : List String :=
  (valueIds b).filter (fun i => (mapGet value_map i).isSome)

/-- The record built for key block `kb` and resolved value block `vb`. -/
def mkPairFor (block_map : BlockMap) (kb vb : Block) : KeyValuePair :=
  { key := get_text_for_block kb block_map,
    value := get_text_for_block vb block_map,
    key_bounding_box := mkBoundingBox kb,
    value_bounding_box := mkBoundingBox vb }

/-- The texts of the `CHILD`-resolved `Word` blocks of `b` whose `text()`
is present, in edge order. -/
def wordTexts (block_map : BlockMap) (b : Block) : List String :=
  (b.relationships.flatMap (fun rel =>
    if rel.rtype = some RelationshipType.Child then rel.ids else [])).filterMap
    (fun child_id =>
      match mapGet block_map child_id with
      | some word_block =>
        if word_block.blockType = some BlockType.Word then word_block.text
        else none
      | none => none)

/-- Single-space join of a list of strings. -/
def spaceJoin : List String → String
  | [] => ""
  | [t] => t
  | t :: t' :: ts => t ++ " " ++ spaceJoin (t' :: ts)

/-- The values stored in a map. -/
def mapVals (m : BlockMap) : List Block := m.map Prod.snd

/-- The ids carried by a block list (blocks without an id contribute
nothing). -/
def blockIds (blocks : List Block) : List String :=
  blocks.filterMap (·.id)

/-- The raw accumulator built by the word loop: each text followed by one
space. -/
def joinWords (ts : List String) : String :=
  ts.foldl (fun acc t => acc ++ t ++ " ") ""

/-- The ids referenced by the `CHILD` relationships of a block, flattened in
source order. -/
def childIds (b : Block) : List String :=
  b.relationships.flatMap (fun rel =>
    if rel.rtype = some RelationshipType.Child then rel.ids else [])

/-- The text contributed by one child id: the text of the id's block when it
resolves to a `Word` whose `text()` is present. -/
def childWordText (block_map : BlockMap) (child_id : String) : Option String :=
  match mapGet block_map child_id with
  | some word_block =>
    if word_block.blockType = some BlockType.Word then word_block.text
    else none
  | none => none

/-- The comparison key of an anchored record: `(top, left)` of the anchor
box, or nothing. -/
def akey (p : KeyValuePair) : Option (ℚ × ℚ) :=
  (anchorBox p).map (fun bb => (bb.top, bb.left))

/-- The comparator, re-expressed on comparison keys: lexicographic
`(top, left)` between two anchored records, anchored before unanchored,
unanchored records tied. -/
def okcmp : Option (ℚ × ℚ) → Option (ℚ × ℚ) → Ordering
  | some x, some y => (qcmp x.1 y.1).then (qcmp x.2 y.2)
  | some _, none => Ordering.lt
  | none, some _ => Ordering.gt
  | none, none => Ordering.eq

/-- Soundness invariant of the three lookup maps. -/
def SoundIdx (idx : Index) : Prop :=
  (∀ b ∈ mapVals idx.blockMap, b.id ≠ none) ∧
  (∀ b ∈ mapVals idx.keyMap,
    b.blockType = some BlockType.KeyValueSet ∧
    b.entityTypes.contains EntityType.Key = true ∧ b.id ≠ none) ∧
  (∀ b ∈ mapVals idx.valueMap,
    b.blockType = some BlockType.KeyValueSet ∧
    b.entityTypes.contains EntityType.Key = false ∧ b.id ≠ none)

/-! ### Concrete sample data (used in scenario conjuncts, witnesses and
counterexamples) -/

/-- A `Word` block with text `"Patient"`. -/
def wordPatient : Block :=
  { id := some "WP", blockType := some BlockType.Word, entityTypes := [],
    text := some "Patient", geometry := none, relationships := [] }

/-- A `Word` block with text `"Name"`. -/
def wordName : Block :=
  { id := some "WN", blockType := some BlockType.Word, entityTypes := [],
    text := some "Name", geometry := none, relationships := [] }

/-- A `Word` block with text `"John"`. -/
def wordJohn : Block :=
  { id := some "WJ", blockType := some BlockType.Word, entityTypes := [],
    text := some "John", geometry := none, relationships := [] }

/-- A `Word` block with text `"Doe"`. -/
def wordDoe : Block :=
  { id := some "WD", blockType := some BlockType.Word, entityTypes := [],
    text := some "Doe", geometry := none, relationships := [] }

/-- A `Word` block whose `text()` is present but empty. -/
def wordEmpty : Block :=
  { id := some "WE", blockType := some BlockType.Word, entityTypes := [],
    text := some "", geometry := none, relationships := [] }

/-- A key block whose children spell `"Patient Name"` and whose single
`VALUE` edge targets `"V1"`. -/
def keyK1 : Block :=
  { id := some "K1", blockType := some BlockType.KeyValueSet,
    entityTypes := [EntityType.Key], text := none, geometry := none,
    relationships := [{ rtype := some RelationshipType.Child, ids := ["WP", "WN"] },
                      { rtype := some RelationshipType.Value, ids := ["V1"] }] }

/-- The value block `"V1"`, whose children spell `"John Doe"`. -/
def valueV1 : Block :=
  { id := some "V1", blockType := some BlockType.KeyValueSet,
    entityTypes := [EntityType.Value], text := none, geometry := none,
    relationships := [{ rtype := some RelationshipType.Child, ids := ["WJ", "WD"] }] }

/-- A key block with one resolvable value target (`"V2"`) and one dangling
one (`"V9"`). -/
def keyK2 : Block :=
  { id := some "K2", blockType := some BlockType.KeyValueSet,
    entityTypes := [EntityType.Key], text := none, geometry := none,
    relationships := [{ rtype := some RelationshipType.Value, ids := ["V2", "V9"] }] }

/-- The childless value block `"V2"`. -/
def valueV2 : Block :=
  { id := some "V2", blockType := some BlockType.KeyValueSet,
    entityTypes := [EntityType.Value], text := none, geometry := none,
    relationships := [] }

/-- A key block whose only value target is dangling. -/
def keyK3 : Block :=
  { id := some "K3", blockType := some BlockType.KeyValueSet,
    entityTypes := [EntityType.Key], text := none, geometry := none,
    relationships := [{ rtype := some RelationshipType.Value, ids := ["V9"] }] }

/-- A key block with an empty-text word between two others among its
children. -/
def keyK4 : Block :=
  { id := some "K4", blockType := some BlockType.KeyValueSet,
    entityTypes := [EntityType.Key], text := none, geometry := none,
    relationships := [{ rtype := some RelationshipType.Child, ids := ["WP", "WE", "WN"] }] }

/-- A sample analysis response. -/
def sampleBlocks : List Block :=
  [wordPatient, wordName, wordJohn, wordDoe, wordEmpty,
   keyK1, valueV1, keyK2, valueV2, keyK3, keyK4]

/-- A normalized box near the top of the page. -/
def boxLow : BoundingBox :=
  { width := mkRat 1 5, height := mkRat 1 10, left := mkRat 3 10, top := mkRat 1 10 }

/-- A normalized box lower on the page. -/
def boxHigh : BoundingBox :=
  { width := mkRat 1 5, height := mkRat 1 10, left := mkRat 3 10, top := mkRat 5 10 }

/-- A key block anchored at `boxLow`, linked to value `"BV1"`. -/
def keyB1 : Block :=
  { id := some "B1", blockType := some BlockType.KeyValueSet,
    entityTypes := [EntityType.Key], text := none,
    geometry := some { boundingBox := some boxLow },
    relationships := [{ rtype := some RelationshipType.Value, ids := ["BV1"] }] }

/-- The childless value block `"BV1"`. -/
def valueBV1 : Block :=
  { id := some "BV1", blockType := some BlockType.KeyValueSet,
    entityTypes := [EntityType.Value], text := none, geometry := none,
    relationships := [] }

/-- A key block anchored at `boxHigh`, linked to value `"BV2"`. -/
def keyB2 : Block :=
  { id := some "B2", blockType := some BlockType.KeyValueSet,
    entityTypes := [EntityType.Key], text := none,
    geometry := some { boundingBox := some boxHigh },
    relationships := [{ rtype := some RelationshipType.Value, ids := ["BV2"] }] }

/-- The childless value block `"BV2"`. -/
def valueBV2 : Block :=
  { id := some "BV2", blockType := some BlockType.KeyValueSet,
    entityTypes := [EntityType.Value], text := none, geometry := none,
    relationships := [] }

/-- A response whose canonical extraction order is not reading order. -/
def boxedBlocks : List Block :=
  [keyB1, valueBV1, keyB2, valueBV2]

/-- The record extracted for `keyK1`. -/
def pairPatient : KeyValuePair :=
  { key := "Patient Name", value := "John Doe",
    key_bounding_box := none, value_bounding_box := none }

/-- The record extracted for `keyK2`. -/
def pairK2 : KeyValuePair :=
  { key := "", value := "", key_bounding_box := none, value_bounding_box := none }

/-- A record anchored at `boxLow`. -/
def pairLow : KeyValuePair :=
  { key := "k1", value := "", key_bounding_box := some boxLow,
    value_bounding_box := none }

/-- A record anchored at `boxHigh`. -/
def pairHigh : KeyValuePair :=
  { key := "k2", value := "", key_bounding_box := some boxHigh,
    value_bounding_box := none }

/-- A record with no anchor. -/
def pairNoPos1 : KeyValuePair :=
  { key := "n1", value := "", key_bounding_box := none, value_bounding_box := none }

/-- Another record with no anchor. -/
def pairNoPos2 : KeyValuePair :=
  { key := "n2", value := "", key_bounding_box := none, value_bounding_box := none }

/-! ## Accumulator lemmas

The Rust loops push into growing accumulators (a `Vec`, a `String`); these
lemmas convert the accumulator-passing folds into `flatMap`/`filterMap`
form. -/

theorem foldl_append_shift {α γ : Type _} (g : γ → List α) (l : List γ)
    (acc : List α) :
    l.foldl (fun a c => a ++ g c) acc = acc ++ l.flatMap g := by
  induction l generalizing acc with
  | nil => simp
  | cons c cs ih => simp [ih, List.append_assoc]

theorem flatMap_toList_eq_filterMap {α γ : Type _} (h : γ → Option α)
    (l : List γ) :
    (l.flatMap fun c => (h c).toList) = l.filterMap h := by
  induction l with
  | nil => rfl
  | cons c cs ih => cases hc : h c <;> simp [ih, hc]

theorem length_filterMap_option_map {α β γ : Type _}
    (f : α → Option β) (h : α → β → γ) (l : List α) :
    (l.filterMap fun a => (f a).map (h a)).length
      = (l.filter fun a => (f a).isSome).length := by
  induction l with
  | nil => rfl
  | cons a as ih => cases hf : f a <;> simp [hf, ih]

/-! ## String lemmas -/

theorem wsChar_space : wsChar ' ' = true := rfl

theorem rustTrim_append_space (s : String) : rustTrim (s ++ " ") = rustTrim s := by
  have hdata : (s ++ " ").data = s.data ++ [' '] := String.data_append s " "
  simp only [rustTrim, hdata, List.reverse_append, List.reverse_cons,
    List.reverse_nil, List.nil_append, List.singleton_append,
    List.dropWhile_cons, wsChar_space, if_true]

theorem sfoldl_words_shift (ts : List String) (acc : String) :
    ts.foldl (fun a t => a ++ t ++ " ") acc = acc ++ joinWords ts := by
  induction ts generalizing acc with
  | nil => simp [joinWords, String.append_empty]
  | cons t ts ih =>
    show ts.foldl _ (acc ++ t ++ " ") = acc ++ joinWords (t :: ts)
    rw [ih (acc ++ t ++ " ")]
    show _ = acc ++ ts.foldl _ ("" ++ t ++ " ")
    rw [ih ("" ++ t ++ " ")]
    simp [String.empty_append, String.append_assoc]

theorem joinWords_cons (t : String) (ts : List String) :
    joinWords (t :: ts) = t ++ " " ++ joinWords ts := by
  show List.foldl _ ("" ++ t ++ " ") ts = _
  rw [sfoldl_words_shift, String.empty_append]

theorem joinWords_append (l1 l2 : List String) :
    joinWords (l1 ++ l2) = joinWords l1 ++ joinWords l2 := by
  show List.foldl _ "" (l1 ++ l2) = _
  rw [List.foldl_append, sfoldl_words_shift]
  rfl

theorem joinWords_eq_spaceJoin (ts : List String) (h : ts ≠ []) :
    joinWords ts = spaceJoin ts ++ " " := by
  induction ts with
  | nil => exact absurd rfl h
  | cons t ts ih =>
    cases ts with
    | nil =>
      rw [joinWords_cons]
      show t ++ " " ++ joinWords [] = spaceJoin [t] ++ " "
      rw [show joinWords [] = "" from rfl, String.append_empty]
      rfl
    | cons t' ts' =>
      rw [joinWords_cons, ih (List.cons_ne_nil t' ts')]
      show _ = t ++ " " ++ spaceJoin (t' :: ts') ++ " "
      simp [String.append_assoc]

theorem rustTrim_joinWords (ts : List String) :
    rustTrim (joinWords ts) = rustTrim (spaceJoin ts) := by
  cases ts with
  | nil => rfl
  | cons t ts => rw [joinWords_eq_spaceJoin _ (List.cons_ne_nil t ts), rustTrim_append_space]

/-! ## Text assembly characterisation -/

theorem wordTexts_eq (block_map : BlockMap) (b : Block) :
    wordTexts block_map b = (childIds b).filterMap (childWordText block_map) := by
  rfl

theorem text_inner_step (block_map : BlockMap) (acc : String) (child_id : String) :
    (match mapGet block_map child_id with
      | some word_block =>
        if word_block.blockType = some BlockType.Word then
          match word_block.text with
          | some word_text => acc ++ word_text ++ " "
          | none => acc
        else acc
      | none => acc)
      = acc ++ (match childWordText block_map child_id with
                 | some t => t ++ " "
                 | none => "") := by
  unfold childWordText
  cases mapGet block_map child_id with
  | none => exact (String.append_empty acc).symm
  | some wb =>
    dsimp only
    by_cases hw : wb.blockType = some BlockType.Word
    · rw [if_pos hw, if_pos hw]
      cases wb.text with
      | none => exact (String.append_empty acc).symm
      | some t => exact String.append_assoc acc t " "
    · rw [if_neg hw, if_neg hw]
      exact (String.append_empty acc).symm

theorem text_inner_fold (block_map : BlockMap) (ids : List String) (acc : String) :
    ids.foldl (fun acc child_id =>
        match mapGet block_map child_id with
        | some word_block =>
          if word_block.blockType = some BlockType.Word then
            match word_block.text with
            | some word_text => acc ++ word_text ++ " "
            | none => acc
          else acc
        | none => acc) acc
      = acc ++ joinWords (ids.filterMap (childWordText block_map)) := by
  induction ids generalizing acc with
  | nil => exact (String.append_empty acc).symm
  | cons cid cids ih =>
    simp only [List.foldl_cons, List.filterMap_cons]
    rw [text_inner_step, ih]
    cases hc : childWordText block_map cid with
    | none => simp [hc, String.append_empty]
    | some t => simp [hc, joinWords_cons, String.append_assoc]

theorem text_outer_fold (block_map : BlockMap) (rels : List Relationship)
    (acc : String) :
    rels.foldl (fun acc rel =>
        if rel.rtype = some RelationshipType.Child then
          rel.ids.foldl (fun acc child_id =>
            match mapGet block_map child_id with
            | some word_block =>
              if word_block.blockType = some BlockType.Word then
                match word_block.text with
                | some word_text => acc ++ word_text ++ " "
                | none => acc
              else acc
            | none => acc) acc
        else acc) acc
      = acc ++ joinWords ((rels.flatMap (fun rel =>
          if rel.rtype = some RelationshipType.Child then rel.ids else [])).filterMap
            (childWordText block_map)) := by
  induction rels generalizing acc with
  | nil => exact (String.append_empty acc).symm
  | cons rel rels ih =>
    simp only [List.foldl_cons, List.flatMap_cons, List.filterMap_append,
      joinWords_append]
    by_cases hr : rel.rtype = some RelationshipType.Child
    · rw [if_pos hr, if_pos hr, text_inner_fold, ih]
      simp [String.append_assoc]
    · rw [if_neg hr, if_neg hr, ih, List.filterMap_nil,
        show joinWords ([] : List String) = "" from rfl, String.empty_append]

theorem get_text_for_block_eq (b : Block) (bm : BlockMap) :
    get_text_for_block b bm = rustTrim (joinWords (wordTexts bm b)) := by
  show rustTrim _ = _
  rw [text_outer_fold, String.empty_append, wordTexts_eq]
  rfl

/-! ## Pair assembly characterisation -/

theorem pair_inner_step (block_map value_map : BlockMap) (kb : Block)
    (acc : List KeyValuePair) (vid : String) :
    (match mapGet value_map vid with
      | some value_block =>
        acc ++ [{ key := get_text_for_block kb block_map,
                  value := get_text_for_block value_block block_map,
                  key_bounding_box := mkBoundingBox kb,
                  value_bounding_box := mkBoundingBox value_block }]
      | none => acc)
      = acc ++ ((mapGet value_map vid).map (mkPairFor block_map kb)).toList := by
  cases mapGet value_map vid with
  | none => exact (List.append_nil acc).symm
  | some vb => rfl

theorem pairAccum_eq (block_map value_map : BlockMap) (kb : Block)
    (acc : List KeyValuePair) :
    pairAccum block_map value_map kb acc
      = acc ++ (valueIds kb).filterMap
          (fun vid => (mapGet value_map vid).map (mkPairFor block_map kb)) := by
  show kb.relationships.foldl _ acc = _
  rw [← flatMap_toList_eq_filterMap]
  have hinner : ∀ (ids : List String) (acc : List KeyValuePair),
      ids.foldl (fun acc value_block_id =>
        match mapGet value_map value_block_id with
        | some value_block =>
          acc ++ [{ key := get_text_for_block kb block_map,
                    value := get_text_for_block value_block block_map,
                    key_bounding_box := mkBoundingBox kb,
                    value_bounding_box := mkBoundingBox value_block }]
        | none => acc) acc
        = acc ++ ids.flatMap
            (fun vid => ((mapGet value_map vid).map (mkPairFor block_map kb)).toList) := by
    intro ids acc
    rw [← foldl_append_shift]
    exact List.foldl_ext _ _ acc (fun acc vid _ => pair_inner_step block_map value_map kb acc vid)
  have houter : ∀ (rels : List Relationship) (acc : List KeyValuePair),
      rels.foldl (fun acc rel =>
        if rel.rtype = some RelationshipType.Value then
          rel.ids.foldl (fun acc value_block_id =>
            match mapGet value_map value_block_id with
            | some value_block =>
              acc ++ [{ key := get_text_for_block kb block_map,
                        value := get_text_for_block value_block block_map,
                        key_bounding_box := mkBoundingBox kb,
                        value_bounding_box := mkBoundingBox value_block }]
            | none => acc) acc
        else acc) acc
        = acc ++ (rels.flatMap (fun rel =>
            if rel.rtype = some RelationshipType.Value then rel.ids else [])).flatMap
              (fun vid => ((mapGet value_map vid).map (mkPairFor block_map kb)).toList) := by
    intro rels
    induction rels with
    | nil => intro acc; exact (List.append_nil acc).symm
    | cons rel rels ih =>
      intro acc
      simp only [List.foldl_cons, List.flatMap_cons, List.flatMap_append]
      by_cases hr : rel.rtype = some RelationshipType.Value
      · rw [if_pos hr, if_pos hr, hinner, ih, List.append_assoc]
      · rw [if_neg hr, if_neg hr, ih, List.flatMap_nil, List.nil_append]
  exact houter kb.relationships acc

theorem pairsForKey_eq (block_map value_map : BlockMap) (kb : Block) :
    pairsForKey block_map value_map kb
      = (valueIds kb).filterMap
          (fun vid => (mapGet value_map vid).map (mkPairFor block_map kb)) := by
  show pairAccum block_map value_map kb [] = _
  rw [pairAccum_eq, List.nil_append]

theorem pairsForKey_length (block_map value_map : BlockMap) (kb : Block) :
    (pairsForKey block_map value_map kb).length
      = (resolvableValueIds value_map kb).length := by
  rw [pairsForKey_eq, resolvableValueIds, length_filterMap_option_map]

theorem extractWithOrder_eq (blocks : List Block) (ord : List (String × Block)) :
    extractWithOrder blocks ord
      = ord.flatMap (fun e =>
          pairsForKey (buildIndex blocks).blockMap (buildIndex blocks).valueMap e.2) := by
  show ord.foldl _ [] = _
  have hstep : ∀ (acc : List KeyValuePair) (e : String × Block),
      pairAccum (buildIndex blocks).blockMap (buildIndex blocks).valueMap e.2 acc
        = acc ++ pairsForKey (buildIndex blocks).blockMap (buildIndex blocks).valueMap e.2 := by
    intro acc e
    rw [pairAccum_eq, pairsForKey_eq]
  calc ord.foldl (fun acc e =>
          pairAccum (buildIndex blocks).blockMap (buildIndex blocks).valueMap e.2 acc) []
      = ord.foldl (fun acc e =>
          acc ++ pairsForKey (buildIndex blocks).blockMap (buildIndex blocks).valueMap e.2) [] :=
        List.foldl_ext _ _ [] (fun acc e _ => hstep acc e)
    _ = [] ++ ord.flatMap (fun e =>
          pairsForKey (buildIndex blocks).blockMap (buildIndex blocks).valueMap e.2) :=
        foldl_append_shift _ ord []
    _ = _ := List.nil_append _

theorem extract_eq_flatMap (blocks : List Block) :
    extract_key_value_pairs blocks
      = (buildIndex blocks).keyMap.flatMap (fun e =>
          pairsForKey (buildIndex blocks).blockMap (buildIndex blocks).valueMap e.2) :=
  extractWithOrder_eq blocks (buildIndex blocks).keyMap

/-! ## Comparator theory -/

theorem qcmp_eq_lt_iff {x y : ℚ} : qcmp x y = Ordering.lt ↔ x < y := by
  unfold qcmp
  split_ifs with h1 h2
  · simp [h1]
  · simp [h2, lt_irrefl]
  · simp [h1]

theorem qcmp_eq_eq_iff {x y : ℚ} : qcmp x y = Ordering.eq ↔ x = y := by
  unfold qcmp
  split_ifs with h1 h2
  · simp [h1.ne]
  · simp [h2]
  · simp [h2]

theorem qcmp_eq_gt_iff {x y : ℚ} : qcmp x y = Ordering.gt ↔ y < x := by
  unfold qcmp
  split_ifs with h1 h2
  · simp [lt_asymm h1]
  · simp [h2, lt_irrefl]
  · simp [lt_of_le_of_ne (le_of_not_lt h1) (Ne.symm h2)]

theorem then_eq_gt {o1 o2 : Ordering} :
    o1.then o2 = Ordering.gt ↔ o1 = Ordering.gt ∨ (o1 = Ordering.eq ∧ o2 = Ordering.gt) := by
  cases o1 <;> simp [Ordering.then]

theorem then_eq_eq {o1 o2 : Ordering} :
    o1.then o2 = Ordering.eq ↔ o1 = Ordering.eq ∧ o2 = Ordering.eq := by
  cases o1 <;> simp [Ordering.then]

theorem then_eq_lt {o1 o2 : Ordering} :
    o1.then o2 = Ordering.lt ↔ o1 = Ordering.lt ∨ (o1 = Ordering.eq ∧ o2 = Ordering.lt) := by
  cases o1 <;> simp [Ordering.then]

theorem pairCmp_eq_okcmp (a b : KeyValuePair) :
    pairCmp a b = okcmp (akey a) (akey b) := by
  unfold pairCmp okcmp akey
  cases anchorBox a <;> cases anchorBox b <;> rfl

theorem okcmp_eq_eq_iff (k1 k2 : Option (ℚ × ℚ)) :
    okcmp k1 k2 = Ordering.eq ↔ k1 = k2 := by
  cases k1 with
  | none => cases k2 <;> simp [okcmp]
  | some x =>
    cases k2 with
    | none => simp [okcmp]
    | some y =>
      simp [okcmp, then_eq_eq, qcmp_eq_eq_iff, Prod.ext_iff]

theorem okcmp_gt_iff (k1 k2 : Option (ℚ × ℚ)) :
    okcmp k1 k2 = Ordering.gt ↔ okcmp k2 k1 = Ordering.lt := by
  cases k1 with
  | none => cases k2 <;> simp [okcmp]
  | some x =>
    cases k2 with
    | none => simp [okcmp]
    | some y =>
      simp only [okcmp, then_eq_gt, then_eq_lt, qcmp_eq_gt_iff, qcmp_eq_lt_iff,
        qcmp_eq_eq_iff]
      constructor
      · rintro (h | ⟨h1, h2⟩)
        · exact Or.inl h
        · exact Or.inr ⟨h1.symm, h2⟩
      · rintro (h | ⟨h1, h2⟩)
        · exact Or.inl h
        · exact Or.inr ⟨h1.symm, h2⟩

theorem okcmp_some_ne_gt {x y : ℚ × ℚ} :
    okcmp (some x) (some y) ≠ Ordering.gt ↔
      (x.1 < y.1 ∨ (x.1 = y.1 ∧ x.2 ≤ y.2)) := by
  simp only [okcmp, Ne, then_eq_gt, qcmp_eq_gt_iff, qcmp_eq_eq_iff, not_or,
    not_and, not_lt]
  constructor
  · rintro ⟨hle, himp⟩
    rcases eq_or_lt_of_le hle with heq | hlt
    · exact Or.inr ⟨heq, himp heq⟩
    · exact Or.inl hlt
  · rintro (h | ⟨h1, h2⟩)
    · exact ⟨le_of_lt h, fun he => absurd (he ▸ h) (lt_irrefl _)⟩
    · exact ⟨le_of_eq h1, fun _ => h2⟩

theorem okLe_trans {k1 k2 k3 : Option (ℚ × ℚ)}
    (h12 : okcmp k1 k2 ≠ Ordering.gt) (h23 : okcmp k2 k3 ≠ Ordering.gt) :
    okcmp k1 k3 ≠ Ordering.gt := by
  cases k1 with
  | none =>
    cases k2 with
    | some y => exact absurd rfl h12
    | none =>
      cases k3 with
      | some z => exact absurd rfl h23
      | none => simp [okcmp]
  | some x =>
    cases k3 with
    | none => simp [okcmp]
    | some z =>
      cases k2 with
      | none => exact absurd rfl h23
      | some y =>
        rcases okcmp_some_ne_gt.mp h12 with h | ⟨e1, l1⟩ <;>
          rcases okcmp_some_ne_gt.mp h23 with h' | ⟨e2, l2⟩ <;>
          apply okcmp_some_ne_gt.mpr
        · exact Or.inl (lt_trans h h')
        · exact Or.inl (e2 ▸ h)
        · exact Or.inl (e1 ▸ h')
        · exact Or.inr ⟨e1.trans e2, le_trans l1 l2⟩

theorem okLe_total (k1 k2 : Option (ℚ × ℚ)) :
    okcmp k1 k2 ≠ Ordering.gt ∨ okcmp k2 k1 ≠ Ordering.gt := by
  by_cases h : okcmp k1 k2 = Ordering.gt
  · right
    rw [okcmp_gt_iff] at h
    simp [h]
  · exact Or.inl h

theorem pairLe_iff (a b : KeyValuePair) :
    pairLe a b = true ↔ pairCmp a b ≠ Ordering.gt := by
  unfold pairLe
  cases pairCmp a b <;> decide

theorem pairLe_trans (a b c : KeyValuePair)
    (hab : pairLe a b = true) (hbc : pairLe b c = true) : pairLe a c = true := by
  rw [pairLe_iff, pairCmp_eq_okcmp] at *
  exact okLe_trans hab hbc

theorem pairLe_total (a b : KeyValuePair) : (pairLe a b || pairLe b a) = true := by
  rw [Bool.or_eq_true, pairLe_iff, pairLe_iff, pairCmp_eq_okcmp, pairCmp_eq_okcmp]
  exact okLe_total (akey a) (akey b)

theorem ordering_beq_eq (o : Ordering) :
    (o == Ordering.eq) = true ↔ o = Ordering.eq := by
  cases o <;> decide

theorem pairCmp_eq_of_eq_anchor {a b p : KeyValuePair}
    (ha : pairCmp a p = Ordering.eq) (hb : pairCmp b p = Ordering.eq) :
    pairCmp a b = Ordering.eq := by
  rw [pairCmp_eq_okcmp, okcmp_eq_eq_iff] at *
  exact ha.trans hb.symm

/-! ## Stable insertion sort theory -/

theorem insertSorted_perm (le : α → α → Bool) (x : α) (l : List α) :
    (insertSorted le x l).Perm (x :: l) := by
  induction l with
  | nil => exact List.Perm.refl _
  | cons y ys ih =>
    unfold insertSorted
    by_cases h : le x y
    · rw [if_pos h]
    · rw [if_neg h]
      exact (ih.cons y).trans (List.Perm.swap x y ys)

theorem insertionSort_perm (le : α → α → Bool) (l : List α) :
    (insertionSort le l).Perm l := by
  induction l with
  | nil => exact List.Perm.refl _
  | cons x xs ih => exact (insertSorted_perm le x _).trans (ih.cons x)

theorem mem_insertionSort (le : α → α → Bool) {a : α} {l : List α} :
    a ∈ insertionSort le l ↔ a ∈ l :=
  (insertionSort_perm le l).mem_iff

theorem insertSorted_pairwise (le : α → α → Bool)
    (htrans : ∀ a b c, le a b = true → le b c = true → le a c = true)
    (htot : ∀ a b, (le a b || le b a) = true)
    (x : α) {l : List α} (hl : l.Pairwise (fun a b => le a b = true)) :
    (insertSorted le x l).Pairwise (fun a b => le a b = true) := by
  induction l with
  | nil => simp [insertSorted]
  | cons y ys ih =>
    rcases List.pairwise_cons.mp hl with ⟨hy, hys⟩
    unfold insertSorted
    by_cases h : le x y
    · rw [if_pos h]
      refine List.pairwise_cons.mpr ⟨?_, hl⟩
      intro z hz
      rcases List.mem_cons.mp hz with rfl | hm
      · exact h
      · exact htrans x y z h (hy z hm)
    · rw [if_neg h]
      have hyx : le y x = true := by
        have htxy := htot x y
        rw [Bool.not_eq_true] at h
        rw [h] at htxy
        simpa using htxy
      refine List.pairwise_cons.mpr ⟨?_, ih hys⟩
      intro z hz
      rcases List.mem_cons.mp ((insertSorted_perm le x ys).mem_iff.mp hz) with rfl | hm
      · exact hyx
      · exact hy z hm

theorem insertionSort_pairwise (le : α → α → Bool)
    (htrans : ∀ a b c, le a b = true → le b c = true → le a c = true)
    (htot : ∀ a b, (le a b || le b a) = true) (l : List α) :
    (insertionSort le l).Pairwise (fun a b => le a b = true) := by
  induction l with
  | nil => exact List.Pairwise.nil
  | cons x xs ih => exact insertSorted_pairwise le htrans htot x ih

theorem filter_insertSorted_neg (le : α → α → Bool) (q : α → Bool) (x : α)
    (hx : q x = false) (l : List α) :
    (insertSorted le x l).filter q = l.filter q := by
  induction l with
  | nil => simp [insertSorted, hx]
  | cons y ys ih =>
    unfold insertSorted
    by_cases h : le x y
    · rw [if_pos h, List.filter_cons, hx]
      simp
    · rw [if_neg h, List.filter_cons, List.filter_cons, ih]

theorem filter_insertSorted_pos (le : α → α → Bool) (q : α → Bool) (x : α)
    (hx : q x = true) (l : List α)
    (hall : ∀ y ∈ l, q y = true → le x y = true) :
    (insertSorted le x l).filter q = x :: l.filter q := by
  induction l with
  | nil => simp [insertSorted, hx]
  | cons y ys ih =>
    unfold insertSorted
    by_cases h : le x y
    · rw [if_pos h, List.filter_cons, hx]
      simp
    · rw [if_neg h]
      have hy : q y = false := by
        by_cases hqy : q y = true
        · exact absurd (hall y (List.mem_cons_self y ys) hqy) h
        · exact Bool.not_eq_true _ ▸ hqy
      have ih' := ih (fun z hz hqz => hall z (List.mem_cons_of_mem y hz) hqz)
      rw [List.filter_cons, hy, List.filter_cons, hy]
      simpa using ih'

theorem filter_insertionSort (le : α → α → Bool) (q : α → Bool)
    (hcl : ∀ a b, q a = true → q b = true → le a b = true) (l : List α) :
    (insertionSort le l).filter q = l.filter q := by
  induction l with
  | nil => rfl
  | cons x xs ih =>
    show (insertSorted le x (insertionSort le xs)).filter q = _
    by_cases hx : q x = true
    · rw [filter_insertSorted_pos le q x hx _
        (fun y _ hqy => hcl x y hx hqy), ih, List.filter_cons, hx]
      simp
    · have hx' : q x = false := Bool.not_eq_true _ ▸ hx
      rw [filter_insertSorted_neg le q x hx', ih, List.filter_cons, hx']
      simp

/-! ## Index lemmas -/

theorem mem_mapVals_mapInsert {c b : Block} {m : BlockMap} {k : String}
    (h : c ∈ mapVals (mapInsert m k b)) : c = b ∨ c ∈ mapVals m := by
  rcases List.mem_map.mp h with ⟨e, he, rfl⟩
  rcases List.mem_cons.mp he with rfl | hm
  · exact Or.inl rfl
  · exact Or.inr (List.mem_map.mpr ⟨e, (List.filter_sublist m).subset hm, rfl⟩)

theorem indexStep_sound {idx : Index} (h : SoundIdx idx) (block : Block) :
    SoundIdx (indexStep idx block) := by
  obtain ⟨hb, hk, hv⟩ := h
  unfold indexStep
  cases hid : block.id with
  | none => exact ⟨hb, hk, hv⟩
  | some bid =>
    dsimp only
    by_cases ht : block.blockType = some BlockType.KeyValueSet
    · rw [if_pos ht]
      by_cases he : block.entityTypes.contains EntityType.Key
      · rw [if_pos he]
        refine ⟨?_, ?_, hv⟩
        · intro b hm
          rcases mem_mapVals_mapInsert hm with rfl | hm'
          · simp [hid]
          · exact hb b hm'
        · intro b hm
          rcases mem_mapVals_mapInsert hm with rfl | hm'
          · exact ⟨ht, he, by simp [hid]⟩
          · exact hk b hm'
      · rw [if_neg he]
        refine ⟨?_, hk, ?_⟩
        · intro b hm
          rcases mem_mapVals_mapInsert hm with rfl | hm'
          · simp [hid]
          · exact hb b hm'
        · intro b hm
          rcases mem_mapVals_mapInsert hm with rfl | hm'
          · exact ⟨ht, Bool.not_eq_true _ ▸ he, by simp [hid]⟩
          · exact hv b hm'
    · rw [if_neg ht]
      refine ⟨?_, hk, hv⟩
      intro b hm
      rcases mem_mapVals_mapInsert hm with rfl | hm'
      · simp [hid]
      · exact hb b hm'

theorem foldl_indexStep_sound (blocks : List Block) {idx : Index}
    (h : SoundIdx idx) : SoundIdx (blocks.foldl indexStep idx) := by
  induction blocks generalizing idx with
  | nil => exact h
  | cons block blocks ih => exact ih (indexStep_sound h block)

theorem buildIndex_sound (blocks : List Block) : SoundIdx (buildIndex blocks) :=
  foldl_indexStep_sound blocks
    ⟨fun b hb => absurd hb (by simp [mapVals]),
     fun b hb => absurd hb (by simp [mapVals]),
     fun b hb => absurd hb (by simp [mapVals])⟩

theorem pair_mem_mapInsert_self (m : BlockMap) (k : String) (b : Block) :
    (k, b) ∈ mapInsert m k b :=
  List.mem_cons_self _ _

theorem pair_mem_mapInsert_of_ne {m : BlockMap} {i : String} {b : Block}
    (hm : (i, b) ∈ m) {k : String} (hne : i ≠ k) (b' : Block) :
    (i, b) ∈ mapInsert m k b' :=
  List.mem_cons_of_mem _ (List.mem_filter.mpr ⟨hm, bne_iff_ne.mpr hne⟩)

theorem indexStep_keyMap_preserve {idx : Index} {i : String} {b : Block}
    (hm : (i, b) ∈ idx.keyMap) {block : Block} (hne : block.id ≠ some i) :
    (i, b) ∈ (indexStep idx block).keyMap := by
  unfold indexStep
  cases hid : block.id with
  | none => exact hm
  | some bid =>
    dsimp only
    have hib : i ≠ bid := fun h => hne (h ▸ hid)
    by_cases ht : block.blockType = some BlockType.KeyValueSet
    · rw [if_pos ht]
      by_cases he : block.entityTypes.contains EntityType.Key
      · rw [if_pos he]
        exact pair_mem_mapInsert_of_ne hm hib block
      · rw [if_neg he]
        exact hm
    · rw [if_neg ht]
      exact hm

theorem indexStep_valueMap_preserve {idx : Index} {i : String} {b : Block}
    (hm : (i, b) ∈ idx.valueMap) {block : Block} (hne : block.id ≠ some i) :
    (i, b) ∈ (indexStep idx block).valueMap := by
  unfold indexStep
  cases hid : block.id with
  | none => exact hm
  | some bid =>
    dsimp only
    have hib : i ≠ bid := fun h => hne (h ▸ hid)
    by_cases ht : block.blockType = some BlockType.KeyValueSet
    · rw [if_pos ht]
      by_cases he : block.entityTypes.contains EntityType.Key
      · rw [if_pos he]
        exact hm
      · rw [if_neg he]
        exact pair_mem_mapInsert_of_ne hm hib block
    · rw [if_neg ht]
      exact hm

theorem foldl_keyMap_preserve {idx : Index} {i : String} {b : Block}
    (hm : (i, b) ∈ idx.keyMap) {blocks : List Block}
    (hall : ∀ c ∈ blocks, c.id ≠ some i) :
    (i, b) ∈ (blocks.foldl indexStep idx).keyMap := by
  induction blocks generalizing idx with
  | nil => exact hm
  | cons block blocks ih =>
    exact ih (indexStep_keyMap_preserve hm (hall block (List.mem_cons_self _ _)))
      (fun c hc => hall c (List.mem_cons_of_mem _ hc))

theorem foldl_valueMap_preserve {idx : Index} {i : String} {b : Block}
    (hm : (i, b) ∈ idx.valueMap) {blocks : List Block}
    (hall : ∀ c ∈ blocks, c.id ≠ some i) :
    (i, b) ∈ (blocks.foldl indexStep idx).valueMap := by
  induction blocks generalizing idx with
  | nil => exact hm
  | cons block blocks ih =>
    exact ih (indexStep_valueMap_preserve hm (hall block (List.mem_cons_self _ _)))
      (fun c hc => hall c (List.mem_cons_of_mem _ hc))

theorem indexStep_keyMap_self {idx : Index} {b : Block} {i : String}
    (hid : b.id = some i) (ht : b.blockType = some BlockType.KeyValueSet)
    (he : b.entityTypes.contains EntityType.Key = true) :
    (i, b) ∈ (indexStep idx b).keyMap := by
  unfold indexStep
  rw [hid]
  dsimp only
  rw [if_pos ht, if_pos he]
  exact pair_mem_mapInsert_self _ _ _

theorem indexStep_valueMap_self {idx : Index} {b : Block} {i : String}
    (hid : b.id = some i) (ht : b.blockType = some BlockType.KeyValueSet)
    (he : b.entityTypes.contains EntityType.Key = false) :
    (i, b) ∈ (indexStep idx b).valueMap := by
  unfold indexStep
  rw [hid]
  dsimp only
  rw [if_pos ht, if_neg (by simpa using he)]
  exact pair_mem_mapInsert_self _ _ _

theorem later_ids_ne {l1 l2 : List Block} {b : Block} {i : String}
    (hid : b.id = some i) (hnd : (blockIds (l1 ++ b :: l2)).Nodup) :
    ∀ c ∈ l2, c.id ≠ some i := by
  intro c hc hcid
  have hsplit : blockIds (l1 ++ b :: l2) = blockIds l1 ++ i :: blockIds l2 := by
    unfold blockIds
    rw [List.filterMap_append, List.filterMap_cons, hid]
  rw [hsplit] at hnd
  have hnd2 : (i :: blockIds l2).Nodup := hnd.of_append_right
  have hmem : i ∈ blockIds l2 := List.mem_filterMap.mpr ⟨c, hc, hcid⟩
  exact (List.nodup_cons.mp hnd2).1 hmem

theorem buildIndex_keyMap_complete {blocks : List Block}
    (hnd : (blockIds blocks).Nodup) {b : Block} (hb : b ∈ blocks) {i : String}
    (hid : b.id = some i) (ht : b.blockType = some BlockType.KeyValueSet)
    (he : b.entityTypes.contains EntityType.Key = true) :
    b ∈ mapVals (buildIndex blocks).keyMap := by
  rcases List.append_of_mem hb with ⟨l1, l2, rfl⟩
  have hall := later_ids_ne hid hnd
  unfold buildIndex
  rw [List.foldl_append, List.foldl_cons]
  exact List.mem_map.mpr ⟨(i, b),
    foldl_keyMap_preserve (indexStep_keyMap_self hid ht he) hall, rfl⟩

theorem buildIndex_valueMap_complete {blocks : List Block}
    (hnd : (blockIds blocks).Nodup) {b : Block} (hb : b ∈ blocks) {i : String}
    (hid : b.id = some i) (ht : b.blockType = some BlockType.KeyValueSet)
    (he : b.entityTypes.contains EntityType.Key = false) :
    b ∈ mapVals (buildIndex blocks).valueMap := by
  rcases List.append_of_mem hb with ⟨l1, l2, rfl⟩
  have hall := later_ids_ne hid hnd
  unfold buildIndex
  rw [List.foldl_append, List.foldl_cons]
  exact List.mem_map.mpr ⟨(i, b),
    foldl_valueMap_preserve (indexStep_valueMap_self hid ht he) hall, rfl⟩

theorem foldl_push_eq_map {α γ : Type _} (f : γ → α) (l : List γ) :
    l.foldl (fun acc c => acc ++ [f c]) [] = l.map f :=
  (foldl_append_shift (fun c => [f c]) l []).trans
    (by rw [List.nil_append]
        induction l with
        | nil => rfl
        | cons c cs ih => rw [List.flatMap_cons, List.map_cons, ih, List.singleton_append])

theorem filterMap_option_restrict {α β γ : Type _} (f : α → Option β)
    (h : α → β → γ) (l : List α) :
    l.filterMap (fun a => (f a).map (h a))
      = (l.filter (fun a => (f a).isSome)).filterMap (fun a => (f a).map (h a)) := by
  induction l with
  | nil => rfl
  | cons a as ih => cases hf : f a <;> simp [hf, ih]

theorem serializeBoundingBox_roundtrip (b : BoundingBox) :
    deserializeBoundingBox (serializeBoundingBox b) = some b := rfl

theorem serializeOptBox_roundtrip (ob : Option BoundingBox) :
    deserializeOptBox (serializeOptBox ob) = some ob := by
  cases ob with
  | none => rfl
  | some b => rfl

theorem serializeKeyValuePair_roundtrip (p : KeyValuePair) :
    deserializeKeyValuePair (serializeKeyValuePair p) = some p := by
  rcases p with ⟨k, v, kb, vb⟩
  cases kb <;> cases vb <;> rfl

/-! ## Claim theorems -/

/-- Claim C1: for every block list and key block, the assembler emits exactly
one record per value-target id that resolves to a known value block (N ids,
with multiplicity, give N records — no de-duplication), all records share the
key's text and bounding box, and the full extraction output is the
concatenation of the per-key contributions. -/
theorem pair_assembler_count_and_shared_key (blocks : List Block) (kb : Block) :
    (pairsForKey (buildIndex blocks).blockMap (buildIndex blocks).valueMap kb).length
        = (resolvableValueIds (buildIndex blocks).valueMap kb).length
  ∧ (∀ p ∈ pairsForKey (buildIndex blocks).blockMap (buildIndex blocks).valueMap kb,
      p.key = get_text_for_block kb (buildIndex blocks).blockMap ∧
      p.key_bounding_box = mkBoundingBox kb)
  ∧ extract_key_value_pairs blocks
      = (buildIndex blocks).keyMap.flatMap
          (fun e => pairsForKey (buildIndex blocks).blockMap (buildIndex blocks).valueMap e.2) := by
  refine ⟨pairsForKey_length _ _ _, ?_, extract_eq_flatMap blocks⟩
  intro p hp
  rw [pairsForKey_eq] at hp
  rcases List.mem_filterMap.mp hp with ⟨vid, _, hsome⟩
  rcases Option.map_eq_some'.mp hsome with ⟨vb, _, rfl⟩
  exact ⟨rfl, rfl⟩

/-- Witness for C1: on the sample response, key `K1` has one resolvable value
id, contributes one record, and that record carries the key's text. -/
theorem pair_assembler_count_and_shared_key_witness :
    (pairsForKey (buildIndex sampleBlocks).blockMap (buildIndex sampleBlocks).valueMap keyK1).length
        = (resolvableValueIds (buildIndex sampleBlocks).valueMap keyK1).length
  ∧ pairPatient.key = get_text_for_block keyK1 (buildIndex sampleBlocks).blockMap :=
  ⟨(pair_assembler_count_and_shared_key sampleBlocks keyK1).1,
   ((pair_assembler_count_and_shared_key sampleBlocks keyK1).2.1 pairPatient (by decide)).1⟩

/-- Claim C2 (amended): text assembly appends, for every `CHILD`-resolved
`Word` block whose `text()` is present (even when the text is the empty
string), that text plus one space, and trims the result; equivalently the
result is the trim of the single-space join of all present child-word
texts.  An empty-text word therefore contributes an extra separator
(cf. the counterexample); the scenario `["Patient","Name"] ↦ "Patient Name"`
holds. -/
theorem text_assembly_single_space_join :
    (∀ (b : Block) (bm : BlockMap),
      get_text_for_block b bm = rustTrim (spaceJoin (wordTexts bm b)))
  ∧ get_text_for_block keyK1 (buildIndex sampleBlocks).blockMap = "Patient Name" :=
  ⟨fun b bm => by rw [get_text_for_block_eq, rustTrim_joinWords],
   by decide⟩

/-- Counterexample to C2 as stated: a `Word` child whose text is present but
empty is not skipped — it contributes an extra separator, so the assembled
text is not the single-space join of the non-empty child texts. -/
theorem text_single_space_counterexample :
    get_text_for_block keyK4 (buildIndex sampleBlocks).blockMap = "Patient  Name"
  ∧ rustTrim (spaceJoin ((wordTexts (buildIndex sampleBlocks).blockMap keyK4).filter
      (fun t => t != ""))) = "Patient Name"
  ∧ get_text_for_block keyK4 (buildIndex sampleBlocks).blockMap
      ≠ rustTrim (spaceJoin ((wordTexts (buildIndex sampleBlocks).blockMap keyK4).filter
          (fun t => t != ""))) :=
  ⟨by decide, by decide, by decide⟩

/-- Claim C4: a key block none of whose value-target ids resolves to a known
value block contributes zero records. -/
theorem key_without_resolvable_values_dropped (block_map value_map : BlockMap)
    (kb : Block) (h : resolvableValueIds value_map kb = []) :
    pairsForKey block_map value_map kb = [] :=
  List.eq_nil_of_length_eq_zero
    (by rw [pairsForKey_length block_map value_map kb, h]; rfl)

/-- Witness for C4: key `K3`'s only value id is dangling, and it contributes
zero records. -/
theorem key_without_resolvable_values_dropped_witness :
    resolvableValueIds (buildIndex sampleBlocks).valueMap keyK3 = []
  ∧ pairsForKey (buildIndex sampleBlocks).blockMap (buildIndex sampleBlocks).valueMap keyK3 = [] :=
  ⟨by decide,
   key_without_resolvable_values_dropped _ _ keyK3 (by decide)⟩

/-- Claim C6: lookup failures degrade, never abort: the per-key contribution
is a total function equal to the resolvable-targets traversal (dangling ids
are skipped — restricting the id list to the resolvable ones changes
nothing), a key block with no bounding box still yields its records with
`key_bounding_box = none`, and every record's value fields are exactly those
of its resolved value block (so a value block with no box yields
`value_bounding_box = none`). -/
theorem lookup_failures_nonfatal (block_map value_map : BlockMap) (kb : Block) :
    pairsForKey block_map value_map kb
      = (valueIds kb).filterMap
          (fun vid => (mapGet value_map vid).map (fun vb => mkPairFor block_map kb vb))
  ∧ pairsForKey block_map value_map kb
      = (resolvableValueIds value_map kb).filterMap
          (fun vid => (mapGet value_map vid).map (fun vb => mkPairFor block_map kb vb))
  ∧ (mkBoundingBox kb = none →
      ∀ p ∈ pairsForKey block_map value_map kb, p.key_bounding_box = none)
  ∧ (∀ p ∈ pairsForKey block_map value_map kb,
      ∃ vid ∈ valueIds kb, ∃ vb, mapGet value_map vid = some vb ∧
        p.value_bounding_box = mkBoundingBox vb ∧
        p.value = get_text_for_block vb block_map) := by
  refine ⟨pairsForKey_eq _ _ _, ?_, ?_, ?_⟩
  · exact (pairsForKey_eq _ _ _).trans
      (filterMap_option_restrict (fun vid => mapGet value_map vid)
        (fun _ vb => mkPairFor block_map kb vb) (valueIds kb))
  · intro hnone p hp
    rw [pairsForKey_eq] at hp
    rcases List.mem_filterMap.mp hp with ⟨vid, _, hsome⟩
    rcases Option.map_eq_some'.mp hsome with ⟨vb, _, rfl⟩
    exact hnone
  · intro p hp
    rw [pairsForKey_eq] at hp
    rcases List.mem_filterMap.mp hp with ⟨vid, hvid, hsome⟩
    rcases Option.map_eq_some'.mp hsome with ⟨vb, hvb, rfl⟩
    exact ⟨vid, hvid, vb, hvb, rfl, rfl⟩

/-- Witness for C6: key `K2` has no geometry and one dangling value id; its
single record is still produced and has no key box. -/
theorem lookup_failures_nonfatal_witness :
    mkBoundingBox keyK2 = none
  ∧ pairK2 ∈ pairsForKey (buildIndex sampleBlocks).blockMap
      (buildIndex sampleBlocks).valueMap keyK2
  ∧ pairK2.key_bounding_box = none :=
  ⟨rfl, by decide,
   (lookup_failures_nonfatal (buildIndex sampleBlocks).blockMap
      (buildIndex sampleBlocks).valueMap keyK2).2.2.1 rfl pairK2 (by decide)⟩

/-- Claim C9: serialising a `KeyValuePair` list to the JSON output shape and
deserialising it back yields the same list, all fields (including absent
boxes) preserved. -/
theorem serialize_roundtrip (l : List KeyValuePair) :
    deserializeKeyValuePairList (serializeKeyValuePairs l) = some l := by
  show (l.map serializeKeyValuePair).foldr _ (some []) = some l
  induction l with
  | nil => rfl
  | cons p ps ih =>
    rw [List.map_cons, List.foldr_cons, ih, serializeKeyValuePair_roundtrip]

/-- Claim C7: `draw_bounding_box` converts the normalized box to pixel
coordinates by `left·width_px`, `top·height_px`, `width·width_px`,
`height·height_px`, each truncated, and draws that rectangle plus
successively one-pixel-larger concentric rectangles; on a 1000×800 image the
box `{left: 1/10, top: 1/5, width: 3/10, height: 1/20}` is drawn at
top-left `(100, 160)` with size `(300, 40)`. -/
theorem draw_bounding_box_pixels (bbox : BoundingBox) (w h t : Nat) :
    draw_bounding_box bbox w h t
      = (List.range t).map (fun i : Nat =>
          { left := ratTruncToInt (bbox.left * w) - (i : Int),
            top := ratTruncToInt (bbox.top * h) - (i : Int),
            width := ratTruncToNat (bbox.width * w) + 2 * i,
            height := ratTruncToNat (bbox.height * h) + 2 * i })
  ∧ draw_bounding_box
        { width := 3/10, height := 1/20, left := 1/10, top := 1/5 } 1000 800 3
      = [{ left := 100, top := 160, width := 300, height := 40 },
         { left := 99, top := 159, width := 302, height := 42 },
         { left := 98, top := 158, width := 304, height := 44 }] := by
  have hgen : ∀ (bbox : BoundingBox) (w h t : Nat),
      draw_bounding_box bbox w h t
        = (List.range t).map (fun i : Nat =>
            { left := ratTruncToInt (bbox.left * w) - (i : Int),
              top := ratTruncToInt (bbox.top * h) - (i : Int),
              width := ratTruncToNat (bbox.width * w) + 2 * i,
              height := ratTruncToNat (bbox.height * h) + 2 * i }) :=
    fun bbox w h t => foldl_push_eq_map _ (List.range t)
  refine ⟨hgen bbox w h t, ?_⟩
  rw [hgen, show List.range 3 = [0, 1, 2] from rfl]
  simp only [List.map_cons, List.map_nil]
  norm_num [ratTruncToInt, ratTruncToNat, Rect.mk.injEq]
  omega

/-- Claim C3: the reading-order sort returns a permutation of its input that
is sorted by the comparator, is stable (each comparator-equivalence class is
preserved verbatim, in order), and the comparator behaves as specified: two
anchorless records tie, an anchored record precedes an anchorless one, and
two anchored records compare lexicographically by `top` then `left` of their
anchors (key box if present, else value box). -/
theorem sort_reading_order (l : List KeyValuePair) :
    (sort_key_value_pairs l).Perm l
  ∧ (sort_key_value_pairs l).Pairwise (fun a b => pairCmp a b ≠ Ordering.gt)
  ∧ (∀ p : KeyValuePair,
      (sort_key_value_pairs l).filter (fun x => pairCmp x p == Ordering.eq)
        = l.filter (fun x => pairCmp x p == Ordering.eq))
  ∧ (∀ a b : KeyValuePair, anchorBox a = none → anchorBox b = none →
      pairCmp a b = Ordering.eq)
  ∧ (∀ (a b : KeyValuePair) (x : BoundingBox),
      anchorBox a = some x → anchorBox b = none → pairCmp a b = Ordering.lt)
  ∧ (∀ (a b : KeyValuePair) (x y : BoundingBox),
      anchorBox a = some x → anchorBox b = some y →
      pairCmp a b = (qcmp x.top y.top).then (qcmp x.left y.left))
  ∧ (∀ p : KeyValuePair, anchorBox p = p.key_bounding_box.or p.value_bounding_box) := by
  refine ⟨insertionSort_perm pairLe l,
    List.Pairwise.imp (fun h => (pairLe_iff _ _).mp h)
      (insertionSort_pairwise pairLe pairLe_trans pairLe_total l),
    ?_, ?_, ?_, ?_, fun p => rfl⟩
  · intro p
    refine filter_insertionSort pairLe _ ?_ l
    intro a b ha hb
    rw [ordering_beq_eq] at ha hb
    refine (pairLe_iff a b).mpr (fun hgt => ?_)
    rw [pairCmp_eq_of_eq_anchor ha hb] at hgt
    exact Ordering.noConfusion hgt
  · intro a b h1 h2
    simp [pairCmp, h1, h2]
  · intro a b x h1 h2
    simp [pairCmp, h1, h2]
  · intro a b x y h1 h2
    simp [pairCmp, h1, h2]

/-- Witness for C3: the sorted two-record list is a permutation of the
input, two anchorless records tie, an anchored record precedes an anchorless
one, and two anchored records compare lexicographically. -/
theorem sort_reading_order_witness :
    (sort_key_value_pairs [pairHigh, pairLow]).Perm [pairHigh, pairLow]
  ∧ pairCmp pairNoPos1 pairNoPos2 = Ordering.eq
  ∧ pairCmp pairLow pairNoPos1 = Ordering.lt
  ∧ pairCmp pairLow pairHigh
      = (qcmp boxLow.top boxHigh.top).then (qcmp boxLow.left boxHigh.left) :=
  ⟨(sort_reading_order [pairHigh, pairLow]).1,
   (sort_reading_order []).2.2.2.1 pairNoPos1 pairNoPos2 rfl rfl,
   (sort_reading_order []).2.2.2.2.1 pairLow pairNoPos1 boxLow rfl rfl,
   (sort_reading_order []).2.2.2.2.2.1 pairLow pairHigh boxLow boxHigh rfl rfl⟩

/-- Counterexample to C5 as stated: the key map is a `HashMap`, whose
iteration order is unspecified and varies between runs; on `sampleBlocks`
two valid iteration orders (the canonical one and its reverse) give
different sorted outputs, because the two emitted records are both
anchorless and therefore tie under the comparator, so the stable sort
preserves whichever order extraction produced. -/
theorem extraction_order_counterexample :
    ((buildIndex sampleBlocks).keyMap.reverse).Perm (buildIndex sampleBlocks).keyMap
  ∧ sort_key_value_pairs (extractWithOrder sampleBlocks (buildIndex sampleBlocks).keyMap)
      ≠ sort_key_value_pairs
          (extractWithOrder sampleBlocks ((buildIndex sampleBlocks).keyMap.reverse)) :=
  ⟨List.reverse_perm _, by decide⟩

/-- Claim C5 (amended): extraction followed by the reading-order sort is
deterministic up to comparator ties: for any two key-map iteration orders
the sorted outputs are permutations of each other and each is sorted by the
comparator; the ordered list itself is not unique because records tied
under the comparator stay in (unspecified) extraction order. -/
theorem extraction_deterministic_up_to_ties (blocks : List Block)
    (ord1 ord2 : List (String × Block))
    (h1 : ord1.Perm (buildIndex blocks).keyMap)
    (h2 : ord2.Perm (buildIndex blocks).keyMap) :
    (sort_key_value_pairs (extractWithOrder blocks ord1)).Perm
      (sort_key_value_pairs (extractWithOrder blocks ord2))
  ∧ (sort_key_value_pairs (extractWithOrder blocks ord1)).Pairwise
      (fun a b => pairCmp a b ≠ Ordering.gt) := by
  constructor
  · have hperm : (extractWithOrder blocks ord1).Perm (extractWithOrder blocks ord2) := by
      rw [extractWithOrder_eq, extractWithOrder_eq]
      exact List.Perm.flatMap_right _ (h1.trans h2.symm)
    exact ((insertionSort_perm pairLe _).trans hperm).trans
      (insertionSort_perm pairLe _).symm
  · exact List.Pairwise.imp (fun h => (pairLe_iff _ _).mp h)
      (insertionSort_pairwise pairLe pairLe_trans pairLe_total _)

/-- Witness for C5 (amended): at the canonical order and its reverse the two
sorted outputs are permutations of each other. -/
theorem extraction_deterministic_up_to_ties_witness :
    ((buildIndex sampleBlocks).keyMap.reverse).Perm (buildIndex sampleBlocks).keyMap
  ∧ (sort_key_value_pairs (extractWithOrder sampleBlocks (buildIndex sampleBlocks).keyMap)).Perm
      (sort_key_value_pairs
        (extractWithOrder sampleBlocks ((buildIndex sampleBlocks).keyMap.reverse))) :=
  ⟨List.reverse_perm _,
   (extraction_deterministic_up_to_ties sampleBlocks _ _
      (List.Perm.refl _) (List.reverse_perm _)).1⟩

/-- Counterexample to C8 as stated: the drawing loop of `display_image`
iterates the raw extraction output; on `boxedBlocks` that list is not the
sorted list, so the records drawn have not passed through the reading-order
sorter. -/
theorem display_unsorted_counterexample :
    display_image_pairs boxedBlocks
      ≠ sort_key_value_pairs (extract_key_value_pairs boxedBlocks) := by
  decide

/-- Claim C8 (amended): only the JSON path (`analyze_image`) sorts; the
rendering path (`display_image`) consumes the raw extraction output, which
is a permutation of the sorted list. -/
theorem pipeline_dataflow (blocks : List Block) :
    analyze_image_pairs blocks
      = sort_key_value_pairs (extract_key_value_pairs blocks)
  ∧ display_image_pairs blocks = extract_key_value_pairs blocks
  ∧ (display_image_pairs blocks).Perm (analyze_image_pairs blocks) :=
  ⟨rfl, rfl, (insertionSort_perm pairLe _).symm⟩

/-- Claim C10: indexing classifies exactly: every block stored in the key
map is an id-carrying `KeyValueSet` block whose entity types contain `KEY`,
every block stored in the value map is an id-carrying `KeyValueSet` block
whose entity types do not, the two stores are disjoint, blocks without an id
are in no lookup structure, and (under the input invariant that block ids
are unique) an id-carrying `KeyValueSet` block of the input is in the key
store if and only if its entity types contain `KEY`, and in the value store
if and only if they do not. -/
theorem index_partition (blocks : List Block) :
    (∀ b ∈ mapVals (buildIndex blocks).blockMap, b.id ≠ none)
  ∧ (∀ b ∈ mapVals (buildIndex blocks).keyMap,
      b.blockType = some BlockType.KeyValueSet ∧
      b.entityTypes.contains EntityType.Key = true ∧ b.id ≠ none)
  ∧ (∀ b ∈ mapVals (buildIndex blocks).valueMap,
      b.blockType = some BlockType.KeyValueSet ∧
      b.entityTypes.contains EntityType.Key = false ∧ b.id ≠ none)
  ∧ (∀ b : Block, ¬(b ∈ mapVals (buildIndex blocks).keyMap ∧
      b ∈ mapVals (buildIndex blocks).valueMap))
  ∧ ((blockIds blocks).Nodup →
      ∀ b ∈ blocks, b.id ≠ none → b.blockType = some BlockType.KeyValueSet →
        (b ∈ mapVals (buildIndex blocks).keyMap ↔
          b.entityTypes.contains EntityType.Key = true)
      ∧ (b ∈ mapVals (buildIndex blocks).valueMap ↔
          b.entityTypes.contains EntityType.Key = false)) := by
  obtain ⟨hb, hk, hv⟩ := buildIndex_sound blocks
  refine ⟨hb, hk, hv, ?_, ?_⟩
  · rintro b ⟨hbk, hbv⟩
    have h1 := (hk b hbk).2.1
    have h2 := (hv b hbv).2.1
    rw [h1] at h2
    exact Bool.noConfusion h2
  · intro hnd b hbmem hid ht
    cases hi : b.id with
    | none => exact absurd hi hid
    | some i =>
      refine ⟨⟨fun hmem => (hk b hmem).2.1, ?_⟩,
              ⟨fun hmem => (hv b hmem).2.1, ?_⟩⟩
      · intro he
        exact buildIndex_keyMap_complete hnd hbmem hi ht he
      · intro he
        exact buildIndex_valueMap_complete hnd hbmem hi ht he

/-- Witness for C10: on the sample response (whose ids are unique), key
block `K1` is in the key store, value block `V1` is in the value store, and
the claimed equivalences hold for them. -/
theorem index_partition_witness :
    (blockIds sampleBlocks).Nodup
  ∧ (keyK1 ∈ mapVals (buildIndex sampleBlocks).keyMap ↔
      keyK1.entityTypes.contains EntityType.Key = true)
  ∧ (valueV1 ∈ mapVals (buildIndex sampleBlocks).valueMap ↔
      valueV1.entityTypes.contains EntityType.Key = false) :=
  ⟨by decide,
   ((index_partition sampleBlocks).2.2.2.2 (by decide) keyK1 (by decide)
      (by decide) (by decide)).1,
   ((index_partition sampleBlocks).2.2.2.2 (by decide) valueV1 (by decide)
      (by decide) (by decide)).2⟩
